import Mathlib

/-!
Shallow embedding of `src/run-analyze.py`, a chunked binary-file analyzer:
date-pattern scanning (`find_date_patterns`), record-boundary scanning,
text-run extraction (`analyze_chunk`), and the chunked file walk with the
gap-distance histogram (`analyze_binary_file`).  Bytes are modelled as `Nat`,
byte strings as `List Nat`, the `Counter` of gap distances as the list of all
values added to it (its multiset of updates).
-/

namespace RunAnalyze

/-- Byte of `data` at index `i`; the loops below only read in-range indices,
out-of-range reads default to `0`. -/
def byteAt (data : List Nat) (i : Nat) : Nat := data.getD i 0

/-- Models `struct.unpack('<I', data[i:i+4])[0]`: 4-byte little-endian
unsigned decode. -/
def decodeLE4 (data : List Nat) (i : Nat) : Nat :=
  byteAt data i + 256 * byteAt data (i + 1) + 65536 * byteAt data (i + 2) +
    16777216 * byteAt data (i + 3)

/-- Models `struct.unpack('<H', data[i:i+2])[0]`: 2-byte little-endian
unsigned decode. -/
def decodeLE2 (data : List Nat) (i : Nat) : Nat :=
  byteAt data i + 256 * byteAt data (i + 1)

/-- Calendar year of `datetime.fromtimestamp(ts)` under a UTC clock: the civil
Gregorian year of the day `ts / 86400` days after 1970-01-01. -/
def fromtimestampYear (ts : Nat) : Nat :=
  let days := ts / 86400
  let z := days + 719468
  let era := z / 146097
  let doe := z % 146097
  let yoe := (doe - doe / 1460 + doe / 36524 - doe / 146097) / 365
  let y := yoe + era * 400
  let doy := doe - (365 * yoe + yoe / 4 - yoe / 100)
  let mp := (5 * doy + 2) / 153
  let m := if mp < 10 then mp + 3 else mp - 9
  if m ≤ 2 then y + 1 else y

/-- Abstraction of the two description strings built by `find_date_patterns`:
`f"Possible Unix timestamp: {date}"` (determined by the raw timestamp) and
`f"Possible year: {year}"`. -/
inductive DateDesc where
  | unixTs (ts : Nat)
  | yearVal (y : Nat)
deriving DecidableEq

/-- Is this description the Unix-timestamp (epoch-seconds) kind? -/
def DateDesc.isUnix : DateDesc → Bool
  | .unixTs _ => true
  | .yearVal _ => false

/-- Models `find_date_patterns(data, offset)`: a 4-byte epoch-seconds probe
(guarded by `0 < ts < 0xFFFFFFFF` and year strictly between 1900 and 2100)
followed by a 2-byte year probe (year strictly between 1800 and 2100). -/
def find_date_patterns (data : List Nat) (offset : Nat) : List (Nat × DateDesc) :=
  let timestampFindings :=
    if offset + 4 ≤ data.length then
      let ts := decodeLE4 data offset
      if 0 < ts ∧ ts < 4294967295 then
        if 1900 < fromtimestampYear ts ∧ fromtimestampYear ts < 2100 then
          [(offset, DateDesc.unixTs ts)]
        else []
      else []
    else []
  let yearFindings :=
    if offset + 2 ≤ data.length then
      if 1800 < decodeLE2 data offset ∧ decodeLE2 data offset < 2100 then
        [(offset, DateDesc.yearVal (decodeLE2 data offset))]
      else []
    else []
  timestampFindings ++ yearFindings

/-- Python slice `data[a:b]` for `a ≤ b`. -/
def pySlice (data : List Nat) (a b : Nat) : List Nat := (data.drop a).take (b - a)

/-- An ASCII digit or letter, as `bytes.isalnum` classifies single bytes. -/
def isAlnumByte (b : Nat) : Bool :=
  (48 ≤ b && b ≤ 57) || (65 ≤ b && b ≤ 90) || (97 ≤ b && b ≤ 122)

/-- Models Python `bs.isalnum()` on a byte string: nonempty and all bytes
alphanumeric. -/
def bytesIsAlnum (l : List Nat) : Bool := !l.isEmpty && l.all isAlnumByte

/-- The record-start test at position `i`:
`data[i:i+4] == b'\x00\x00\x00\x00' and data[i+4:i+8].isalnum()`. -/
def boundaryMatch (data : List Nat) (i : Nat) : Bool :=
  decide (pySlice data i (i + 4) = [0, 0, 0, 0]) &&
    bytesIsAlnum (pySlice data (i + 4) (i + 8))

/-- The record-start loop of `analyze_chunk`: `for i in range(len(data) - 8)`,
appending `base_offset + i` on each match. -/
def recordStarts (data : List Nat) (base : Nat) : List Nat :=
  ((List.range (data.length - 8)).filter (fun i => boundaryMatch data i)).map
    (fun i => base + i)

/-- The text-run byte test: `32 <= byte <= 126 or byte in (9, 10, 13)`. -/
def qualifies (b : Nat) : Bool :=
  (32 ≤ b && b ≤ 126) || b == 9 || b == 10 || b == 13

/-- One emitted text region (`chunk_stats['text_regions']` entry). -/
structure TextRegion where
  offset : Nat
  length : Nat
  text : String
deriving DecidableEq

/-- The text-region loop of `analyze_chunk`: accumulate `(pos, chr(byte))`
pairs while bytes qualify; on a non-qualifying byte, emit the run if its
length exceeds 4, then reset.  A run still open at the end of the data is
dropped, exactly as in the source. -/
def textScan (base : Nat) : List Nat → Nat → List (Nat × Char) → List TextRegion
  | [], _, _ => []
  | b :: rest, pos, run =>
    if qualifies b then
      textScan base rest (pos + 1) (run ++ [(pos, Char.ofNat b)])
    else
      match run with
      | [] => textScan base rest (pos + 1) []
      | (p0, _) :: _ =>
        (if 4 < run.length then
          [⟨base + p0, run.length, String.mk (run.map Prod.snd)⟩]
        else []) ++ textScan base rest (pos + 1) []

/-- Per-chunk results (`chunk_stats`). -/
structure ChunkStats where
  date_patterns : List (Nat × DateDesc)
  record_starts : List Nat
  text_regions : List TextRegion
deriving DecidableEq

/-- Models `analyze_chunk(data, base_offset)`: the date loop
`for i in range(0, len(data)-8, 4)` with offsets shifted by `base_offset`,
the record-start loop, and the text-region loop. -/
def analyze_chunk (data : List Nat) (base_offset : Nat) : ChunkStats :=
  { date_patterns :=
      ((List.range (data.length - 8)).filter (fun i => decide (i % 4 = 0))).flatMap
        (fun i => (find_date_patterns data i).map (fun p => (base_offset + p.1, p.2)))
    record_starts := recordStarts data base_offset
    text_regions := textScan base_offset data 0 [] }

/-- The accumulated statistics of `analyze_binary_file` (`stats`);
`record_sizes` records, in insertion order, every distance added to the
`Counter`. -/
structure Stats where
  file_size : Nat
  date_patterns : List (Nat × DateDesc)
  record_starts : List Nat
  text_regions : List TextRegion
  record_sizes : List Int
deriving DecidableEq

/-- Models `[rs[i+1] - rs[i] for i in range(len(rs)-1)]`. -/
def pairDistances (rs : List Nat) : List Int :=
  List.zipWith (fun a b => (b : Int) - (a : Int)) rs rs.tail

/-- Merging one chunk's results into the running statistics: the three
`extend` calls plus the distance computation guarded by
`len(chunk_stats['record_starts']) > 1`. -/
def mergeStats (acc : Stats) (cs : ChunkStats) : Stats :=
  { acc with
    date_patterns := acc.date_patterns ++ cs.date_patterns
    record_starts := acc.record_starts ++ cs.record_starts
    text_regions := acc.text_regions ++ cs.text_regions
    record_sizes := acc.record_sizes ++
      (if 1 < cs.record_starts.length then pairDistances cs.record_starts else []) }

/-- The chunked read loop of `analyze_binary_file`: read `chunk_size` bytes,
stop on an empty read, analyze, merge, advance the offset.  `fuel` bounds the
number of iterations; each iteration consumes at least one byte, so a fuel of
`remaining.length` is always sufficient (and when `chunk_size = 0` the loop
stops at once, as an empty read breaks the Python loop). -/
def scanLoopF (chunk_size : Nat) : Nat → List Nat → Nat → Stats → Stats
  | 0, _, _, acc => acc
  | fuel + 1, remaining, current_offset, acc =>
    let chunk := remaining.take chunk_size
    if chunk.isEmpty then acc
    else
      scanLoopF chunk_size fuel (remaining.drop chunk_size)
        (current_offset + chunk.length)
        (mergeStats acc (analyze_chunk chunk current_offset))

/-- Models `analyze_binary_file(filepath, chunk_size)` with the file's byte
content given as `file`; `stats['file_size']` is set before the loop. -/
def analyze_binary_file (file : List Nat) (chunk_size : Nat) : Stats :=
  scanLoopF chunk_size file.length file 0
    { file_size := file.length
      date_patterns := []
      record_starts := []
      text_regions := []
      record_sizes := [] }

/-- Follows the spec's words for the gap histogram (the comparison side of the
per-chunk gap claim): for each chunk in order, when that chunk holds at least
two record-boundary findings, the consecutive-pair distances within that chunk
only; nothing for chunks with fewer than two findings, and no pair drawn from
two different chunks. -/
def specChunkGaps (chunk_size : Nat) : Nat → List Nat → Nat → List Int
  | 0, _, _ => []
  | fuel + 1, remaining, base =>
    let chunk := remaining.take chunk_size
    if chunk.isEmpty then []
    else
      (if 1 < (recordStarts chunk base).length then
        pairDistances (recordStarts chunk base)
      else []) ++
        specChunkGaps chunk_size fuel (remaining.drop chunk_size) (base + chunk.length)

/-- Variant of `find_date_patterns` with the fallible library decode made explicit:
`fromts` stands for `datetime.fromtimestamp(...).year` and may fail
(`Except.error` models a raised exception); the `try/except: pass` of the
source maps the error case to no finding.  The result is `Except` so that an
uncaught exception would surface as `Except.error`. -/
def findDatePatternsE (fromts : Nat → Except String Nat) (data : List Nat)
    (offset : Nat) : Except String (List (Nat × DateDesc)) :=
  let timestampFindings :=
    if offset + 4 ≤ data.length then
      let ts := decodeLE4 data offset
      if 0 < ts ∧ ts < 4294967295 then
        match fromts ts with
        | Except.ok y =>
          if 1900 < y ∧ y < 2100 then [(offset, DateDesc.unixTs ts)] else []
        | Except.error _ => []
      else []
    else []
  let yearFindings :=
    if offset + 2 ≤ data.length then
      if 1800 < decodeLE2 data offset ∧ decodeLE2 data offset < 2100 then
        [(offset, DateDesc.yearVal (decodeLE2 data offset))]
      else []
    else []
  Except.ok (timestampFindings ++ yearFindings)

/-- The date loop of `analyze_chunk` over the explicit-exception scanner,
position by position: an error at any position would propagate and abort the
remaining positions, exactly as an uncaught Python exception would. -/
def dateScanListE (fromts : Nat → Except String Nat) (data : List Nat)
    (base : Nat) : List Nat → List (Nat × DateDesc) →
      Except String (List (Nat × DateDesc))
  | [], acc => Except.ok acc
  | i :: is, acc =>
    match findDatePatternsE fromts data i with
    | Except.ok ds =>
      dateScanListE fromts data base is
        (acc ++ ds.map (fun p => (base + p.1, p.2)))
    | Except.error e => Except.error e

/-- The full date loop of `analyze_chunk` with explicit exceptions. -/
def dateScanE (fromts : Nat → Except String Nat) (data : List Nat)
    (base : Nat) : Except String (List (Nat × DateDesc)) :=
  dateScanListE fromts data base
    ((List.range (data.length - 8)).filter (fun i => decide (i % 4 = 0))) []

/-- The position-tagged run the text loop builds while scanning the bytes `r`
from position `p` on. -/
def runOf (p : Nat) : List Nat → List (Nat × Char)
  | [] => []
  | b :: t => (p, Char.ofNat b) :: runOf (p + 1) t

/-- A 128-byte file, scanned with chunk size 64: the first chunk holds
record-boundary signatures at chunk-relative offsets 10 and 50, the second
chunk a single signature at chunk-relative offset 5 (absolute 69). -/
def c3File : List Nat :=
  (List.replicate 10 255 ++ [0, 0, 0, 0] ++ List.replicate 4 65 ++
    List.replicate 32 255 ++ [0, 0, 0, 0] ++ List.replicate 4 65 ++
    List.replicate 6 255) ++
  (List.replicate 5 255 ++ [0, 0, 0, 0] ++ List.replicate 4 65 ++
    List.replicate 51 255)

/-- Membership in the record-start list: exactly the positions `i` with
`i + 8 < length` (the loop bound `range(len(data) - 8)` is exclusive) whose
bytes match the signature. -/
lemma mem_recordStarts (data : List Nat) (base i : Nat) :
    base + i ∈ recordStarts data base ↔
      i + 8 < data.length ∧ boundaryMatch data i = true := by
  unfold recordStarts
  simp only [List.mem_map, List.mem_filter, List.mem_range]
  constructor
  · rintro ⟨j, ⟨hjr, hjb⟩, hj⟩
    have hji : j = i := by omega
    subst hji
    exact ⟨by omega, hjb⟩
  · rintro ⟨hi, hb⟩
    exact ⟨i, ⟨by omega, hb⟩, rfl⟩

/-- The record-start list never repeats a position. -/
lemma recordStarts_nodup (data : List Nat) (base : Nat) :
    (recordStarts data base).Nodup :=
  List.Nodup.map (fun a b h => by omega)
    (List.Nodup.filter _ (List.nodup_range _))

/-- C1 counterexample: in a chunk of exactly 8 bytes, position
`0 = length - 8` carries the full signature (four zero bytes, four
alphanumeric bytes), yet the scanner reports nothing: the loop
`for i in range(len(data) - 8)` never tests position `length - 8`. -/
theorem c1_counterexample :
    boundaryMatch [0, 0, 0, 0, 65, 66, 67, 68] 0 = true ∧
    recordStarts [0, 0, 0, 0, 65, 66, 67, 68] 0 = [] := by decide

/-- C1 (amended): the scanner records `base + i` exactly for the positions
`i` with `i + 8 < length` (that is, `i` from `0` to `length - 9` inclusive)
whose bytes `[i, i+4)` are all zero and `[i+4, i+8)` all alphanumeric, each
such position exactly once; the signature `00 00 00 00 41 42 43 44` followed
by one more byte yields exactly one finding, and perturbing a zero byte or an
alphanumeric byte suppresses it. -/
theorem c1_record_boundary_positions :
    (∀ data : List Nat, ∀ base : Nat,
        (recordStarts data base).Nodup ∧
        ∀ i : Nat, base + i ∈ recordStarts data base ↔
          i + 8 < data.length ∧ boundaryMatch data i = true) ∧
    recordStarts [0, 0, 0, 0, 65, 66, 67, 68, 255] 0 = [0] ∧
    recordStarts [1, 0, 0, 0, 65, 66, 67, 68, 255] 0 = [] ∧
    recordStarts [0, 0, 0, 0, 65, 66, 67, 32, 255] 0 = [] :=
  ⟨fun data base =>
    ⟨recordStarts_nodup data base, fun i => mem_recordStarts data base i⟩,
   by decide, by decide, by decide⟩

/-- C2 counterexample: a position whose 4-byte decode is `0` produces no
epoch-seconds finding although `0` decodes to a 1970 date, whose year lies
strictly between 1900 and 2100; the scanner additionally demands
`0 < ts < 0xFFFFFFFF`. -/
theorem c2_counterexample :
    decodeLE4 (List.replicate 12 0) 0 = 0 ∧
    fromtimestampYear 0 = 1970 ∧ 1900 < 1970 ∧ 1970 < 2100 ∧
    find_date_patterns (List.replicate 12 0) 0 = [] := by decide

/-- C2 (amended): at a scanned position, the epoch-seconds finding appears
exactly when the 4-byte little-endian value `v` satisfies
`0 < v < 0xFFFFFFFF` and its calendar year is strictly between 1900 and 2100,
and the year finding exactly when the 2-byte value is strictly between 1800
and 2100; the two probes are independent (zero, one, or two findings), value
1850 is reported, 1799, 2100 and 2101 are not. -/
theorem c2_date_scanner_findings :
    (∀ data : List Nat, ∀ offset : Nat, offset + 8 ≤ data.length →
        find_date_patterns data offset =
          (if 0 < decodeLE4 data offset ∧ decodeLE4 data offset < 4294967295 ∧
              1900 < fromtimestampYear (decodeLE4 data offset) ∧
              fromtimestampYear (decodeLE4 data offset) < 2100 then
            [(offset, DateDesc.unixTs (decodeLE4 data offset))]
          else []) ++
          (if 1800 < decodeLE2 data offset ∧ decodeLE2 data offset < 2100 then
            [(offset, DateDesc.yearVal (decodeLE2 data offset))]
          else [])) ∧
    (∀ data : List Nat, ∀ offset : Nat,
        (find_date_patterns data offset).length ≤ 2) ∧
    find_date_patterns [58, 7] 0 = [(0, DateDesc.yearVal 1850)] ∧
    find_date_patterns [7, 7] 0 = [] ∧
    find_date_patterns [52, 8] 0 = [] ∧
    find_date_patterns [53, 8] 0 = [] := by
  refine ⟨?_, ?_, by decide, by decide, by decide, by decide⟩
  · intro data offset h
    have h4 : offset + 4 ≤ data.length := by omega
    have h2 : offset + 2 ≤ data.length := by omega
    simp only [find_date_patterns, h4, h2, if_true]
    split_ifs <;> simp_all
  · intro data offset
    simp only [find_date_patterns]
    split_ifs <;> simp

/-- C2 witness: a chunk carrying the epoch seconds of 2000-01-01T00:00:00Z
(little-endian `80 43 6D 38`) at position 0 yields exactly the epoch-seconds
finding there. -/
theorem c2_witness :
    find_date_patterns [128, 67, 109, 56, 0, 0, 0, 0, 255] 0 =
      [(0, DateDesc.unixTs 946684800)] :=
  (c2_date_scanner_findings.1 [128, 67, 109, 56, 0, 0, 0, 0, 255] 0
    (by decide)).trans (by decide)

/-- C9: a 4-byte decode of `0` or `0xFFFFFFFF` never yields an epoch-seconds
finding — the scanner first demands `0 < ts < 0xFFFFFFFF` — even though `0`
itself decodes to year 1970, strictly between 1900 and 2100. -/
theorem c9_zero_and_max_timestamp_excluded :
    (∀ data : List Nat, ∀ offset : Nat,
        decodeLE4 data offset = 0 ∨ decodeLE4 data offset = 4294967295 →
        ∀ p ∈ find_date_patterns data offset, p.2.isUnix = false) ∧
    fromtimestampYear 0 = 1970 ∧ 1900 < 1970 ∧ 1970 < 2100 := by
  refine ⟨?_, by decide, by decide, by decide⟩
  intro data offset h p hp
  simp only [find_date_patterns] at hp
  split_ifs at hp <;> simp_all [DateDesc.isUnix] <;> omega

/-- C9 witness: on twelve zero bytes every finding (there are none, but the
scanner is applied) is a non-epoch finding. -/
theorem c9_witness :
    ∀ p ∈ find_date_patterns (List.replicate 12 0) 0, p.2.isUnix = false :=
  c9_zero_and_max_timestamp_excluded.1 (List.replicate 12 0) 0
    (Or.inl (by decide))

lemma runOf_length (p : Nat) (r : List Nat) : (runOf p r).length = r.length := by
  induction r generalizing p with
  | nil => rfl
  | cons b t ih => simp [runOf, ih]

lemma runOf_map_snd (p : Nat) (r : List Nat) :
    (runOf p r).map Prod.snd = r.map Char.ofNat := by
  induction r generalizing p with
  | nil => rfl
  | cons b t ih => simp [runOf, ih]

/-- Scanning a block of qualifying bytes emits nothing and extends the open
run by exactly those bytes. -/
lemma textScan_qualRun (base : Nat) (r rest : List Nat) (pos : Nat)
    (run : List (Nat × Char)) (hq : ∀ x ∈ r, qualifies x = true) :
    textScan base (r ++ rest) pos run =
      textScan base rest (pos + r.length) (run ++ runOf pos r) := by
  induction r generalizing pos run with
  | nil => simp [runOf]
  | cons b t ih =>
    have hb : qualifies b = true := hq b (List.mem_cons_self b t)
    simp only [List.cons_append, textScan, hb, if_true, List.append_eq]
    rw [ih (pos + 1) (run ++ [(pos, Char.ofNat b)])
      (fun x hx => hq x (List.mem_cons_of_mem b hx))]
    have harith : pos + 1 + t.length = pos + (b :: t).length := by
      simp [List.length_cons]; omega
    rw [harith]
    simp [runOf, List.append_assoc]

/-- A maximal run of qualifying bytes, begun with no run open at position
`pos` and terminated by the non-qualifying byte `b2`, is emitted exactly when
its length exceeds 4, and the scan then continues after the terminator with
an empty run. -/
lemma textScan_run_block (base pos : Nat) (r : List Nat) (b2 : Nat)
    (suf : List Nat) (hq : ∀ x ∈ r, qualifies x = true)
    (hb2 : qualifies b2 = false) :
    textScan base (r ++ b2 :: suf) pos [] =
      (if 4 < r.length then
        [⟨base + pos, r.length, String.mk (r.map Char.ofNat)⟩]
      else []) ++ textScan base suf (pos + r.length + 1) [] := by
  rw [textScan_qualRun base r (b2 :: suf) pos [] hq]
  simp only [List.nil_append]
  cases r with
  | nil => simp [textScan, hb2, runOf]
  | cons c t =>
    simp only [runOf, textScan, hb2, Bool.false_eq_true, if_false]
    rw [show ((pos, Char.ofNat c) :: runOf (pos + 1) t).length = (c :: t).length by
      simp [runOf_length]]
    rw [show ((pos, Char.ofNat c) :: runOf (pos + 1) t).map Prod.snd =
      (c :: t).map Char.ofNat by simp [runOf_map_snd]]

/-- C4: a maximal qualifying run terminated by a non-qualifying byte is
emitted if and only if its length strictly exceeds 4, with the run's start
offset, length and decoded text; the five printable bytes of `"hello"`
surrounded by non-qualifying bytes give exactly one finding of length 5 and
text `"hello"`, and a qualifying run of length exactly 4 gives none. -/
theorem c4_text_run_threshold :
    (∀ base pos : Nat, ∀ r : List Nat, ∀ b2 : Nat, ∀ suf : List Nat,
        (∀ x ∈ r, qualifies x = true) → qualifies b2 = false →
        textScan base (r ++ b2 :: suf) pos [] =
          (if 4 < r.length then
            [⟨base + pos, r.length, String.mk (r.map Char.ofNat)⟩]
          else []) ++ textScan base suf (pos + r.length + 1) []) ∧
    (analyze_chunk [0, 104, 101, 108, 108, 111, 0] 0).text_regions =
      [⟨1, 5, "hello"⟩] ∧
    (analyze_chunk [0, 104, 101, 108, 108, 0] 0).text_regions = [] :=
  ⟨fun base pos r b2 suf hq hb2 => textScan_run_block base pos r b2 suf hq hb2,
   by decide, by decide⟩

/-- C4 witness: the general threshold equation applied to the bytes of
`"hello"` followed by a zero byte. -/
theorem c4_witness :
    textScan 0 ([104, 101, 108, 108, 111] ++ 0 :: []) 0 [] =
      [⟨0, 5, "hello"⟩] :=
  (c4_text_run_threshold.1 0 0 [104, 101, 108, 108, 111] 0 []
    (by decide) (by decide)).trans (by decide)

/-- A block of qualifying bytes that runs to the end of the data only grows
the open run, which the loop then drops: nothing is emitted. -/
lemma textScan_dropsOpenRun (base : Nat) (r : List Nat) (pos : Nat)
    (run : List (Nat × Char)) (hq : ∀ x ∈ r, qualifies x = true) :
    textScan base r pos run = [] := by
  induction r generalizing pos run with
  | nil => rfl
  | cons b t ih =>
    have hb : qualifies b = true := hq b (List.mem_cons_self b t)
    simp only [textScan, hb, if_true]
    exact ih (pos + 1) (run ++ [(pos, Char.ofNat b)])
      (fun x hx => hq x (List.mem_cons_of_mem b hx))

/-- Appending a qualifying suffix to the data never changes the emitted text
regions: the suffix only feeds the run that is finally dropped. -/
lemma textScan_append_qualRun (base : Nat) (init r : List Nat) (pos : Nat)
    (run : List (Nat × Char)) (hq : ∀ x ∈ r, qualifies x = true) :
    textScan base (init ++ r) pos run = textScan base init pos run := by
  induction init generalizing pos run with
  | nil =>
    simp only [List.nil_append, textScan]
    exact textScan_dropsOpenRun base r pos run hq
  | cons b t ih =>
    by_cases hb : qualifies b
    · simp only [List.cons_append, textScan, hb, if_true]
      exact ih (pos + 1) (run ++ [(pos, Char.ofNat b)])
    · simp only [List.cons_append, textScan, hb, Bool.false_eq_true, if_false,
        List.append_eq]
      cases run with
      | nil => exact ih (pos + 1) []
      | cons p0 run' =>
        obtain ⟨p, c⟩ := p0
        rw [ih (pos + 1) []]

/-- C5: a run of qualifying bytes still open at the end of a chunk is never
flushed — the chunk's text regions are those of the data with the trailing
qualifying block removed, whatever that block's length. -/
theorem c5_trailing_run_dropped :
    ∀ base : Nat, ∀ init r : List Nat, (∀ x ∈ r, qualifies x = true) →
      (analyze_chunk (init ++ r) base).text_regions =
        (analyze_chunk init base).text_regions := by
  intro base init r hq
  show textScan base (init ++ r) 0 [] = textScan base init 0 []
  exact textScan_append_qualRun base init r 0 [] hq

/-- C5 witness: a six-byte printable run left open at the chunk's end yields
nothing beyond the regions of the prefix. -/
theorem c5_witness :
    (analyze_chunk ([0, 104, 101, 108, 108, 111, 0] ++
      [97, 98, 99, 100, 101, 102]) 0).text_regions = [⟨1, 5, "hello"⟩] :=
  (c5_trailing_run_dropped 0 [0, 104, 101, 108, 108, 111, 0]
    [97, 98, 99, 100, 101, 102] (by decide)).trans (by decide)

/-- C8: the accumulated statistics are a deterministic function of the file's
byte content — two scans of the same bytes agree on every accumulated
component. -/
theorem c8_deterministic :
    ∀ file1 file2 : List Nat, ∀ chunk_size : Nat, file1 = file2 →
      analyze_binary_file file1 chunk_size = analyze_binary_file file2 chunk_size := by
  intro file1 file2 chunk_size h
  rw [h]

/-- C8 witness: two scans of the same three-byte file coincide. -/
theorem c8_witness :
    analyze_binary_file [0, 1, 2] 2 = analyze_binary_file [0, 1, 2] 2 :=
  c8_deterministic [0, 1, 2] [0, 1, 2] 2 rfl

@[simp] lemma analyze_chunk_record_starts (data : List Nat) (base : Nat) :
    (analyze_chunk data base).record_starts = recordStarts data base := rfl

/-- One scan-loop step merges the chunk's gaps, then the remaining chunks'
gaps: the accumulated histogram is exactly the per-chunk gap lists in order. -/
lemma scanLoopF_record_sizes (chunk_size fuel : Nat) :
    ∀ (remaining : List Nat) (off : Nat) (acc : Stats),
      (scanLoopF chunk_size fuel remaining off acc).record_sizes =
        acc.record_sizes ++ specChunkGaps chunk_size fuel remaining off := by
  induction fuel with
  | zero => intro remaining off acc; simp [scanLoopF, specChunkGaps]
  | succ n ih =>
    intro remaining off acc
    by_cases hc : (remaining.take chunk_size).isEmpty
    · simp [scanLoopF, specChunkGaps, hc]
    · simp only [scanLoopF, specChunkGaps, hc, Bool.false_eq_true, if_false]
      rw [ih]
      simp [mergeStats, analyze_chunk_record_starts, List.append_assoc]

set_option maxRecDepth 8000 in
/-- C3: the gap histogram of a full scan is exactly the concatenation, chunk
by chunk, of the consecutive-pair distances between the record-boundary
findings inside each single chunk (nothing for chunks with fewer than two
findings, and no pair drawn from two different chunks); for the concrete
128-byte file with boundaries at chunk-relative offsets 10 and 50 in the
first 64-byte chunk and one more at relative offset 5 (absolute 69) in the
second, the histogram holds the value 40 exactly once — in particular no
cross-chunk distance 19 = 69 - 50. -/
theorem c3_gap_histogram_within_chunk :
    (∀ file : List Nat, ∀ chunk_size : Nat,
        (analyze_binary_file file chunk_size).record_sizes =
          specChunkGaps chunk_size file.length file 0) ∧
    (analyze_binary_file c3File 64).record_starts = [10, 50, 69] ∧
    (analyze_binary_file c3File 64).record_sizes = [(40 : Int)] ∧
    (analyze_binary_file c3File 64).record_sizes.count 40 = 1 ∧
    (analyze_binary_file c3File 64).record_sizes.count 19 = 0 := by
  refine ⟨?_, by decide, by decide, by decide, by decide⟩
  intro file chunk_size
  unfold analyze_binary_file
  rw [scanLoopF_record_sizes]
  simp

/-- Every finding of `find_date_patterns data i` carries the probed offset
`i` itself. -/
lemma find_date_patterns_offset (data : List Nat) (i : Nat) :
    ∀ p ∈ find_date_patterns data i, p.1 = i := by
  intro p hp
  simp only [find_date_patterns] at hp
  rcases List.mem_append.mp hp with h | h <;> split_ifs at h <;> simp_all

/-- Date findings of a chunk lie inside the chunk's absolute byte range. -/
lemma analyze_chunk_date_offsets (data : List Nat) (base : Nat) :
    ∀ p ∈ (analyze_chunk data base).date_patterns,
      base ≤ p.1 ∧ p.1 < base + data.length := by
  intro p hp
  simp only [analyze_chunk, List.mem_flatMap, List.mem_map, List.mem_filter,
    List.mem_range] at hp
  obtain ⟨i, ⟨hir, -⟩, q, hq, rfl⟩ := hp
  have hqi := find_date_patterns_offset data i q hq
  constructor
  · omega
  · simp only [hqi]
    omega

/-- Record-boundary findings of a chunk lie inside the chunk's absolute byte
range. -/
lemma analyze_chunk_record_offsets (data : List Nat) (base : Nat) :
    ∀ o ∈ (analyze_chunk data base).record_starts,
      base ≤ o ∧ o < base + data.length := by
  intro o ho
  rw [analyze_chunk_record_starts] at ho
  unfold recordStarts at ho
  simp only [List.mem_map, List.mem_filter, List.mem_range] at ho
  obtain ⟨i, ⟨hi, -⟩, rfl⟩ := ho
  omega

/-- Every region the text loop emits starts at or after the chunk base and
strictly before the end of the bytes scanned so far. -/
lemma textScan_offsets (base : Nat) :
    ∀ (l : List Nat) (pos : Nat) (run : List (Nat × Char)),
      (∀ q ∈ run, q.1 < pos) →
      ∀ r ∈ textScan base l pos run,
        base ≤ r.offset ∧ r.offset < base + pos + l.length
  | [], pos, run, hrun, r, hr => by simp [textScan] at hr
  | b :: rest, pos, run, hrun, r, hr => by
    by_cases hb : qualifies b
    · rw [show textScan base (b :: rest) pos run =
          textScan base rest (pos + 1) (run ++ [(pos, Char.ofNat b)]) by
        simp [textScan, hb]] at hr
      have hrun' : ∀ q ∈ run ++ [(pos, Char.ofNat b)], q.1 < pos + 1 := by
        intro q hq
        rcases List.mem_append.mp hq with h | h
        · exact Nat.lt_succ_of_lt (hrun q h)
        · simp only [List.mem_singleton] at h
          subst h
          omega
      have hres := textScan_offsets base rest (pos + 1) _ hrun' r hr
      refine ⟨hres.1, ?_⟩
      have h2 := hres.2
      simp only [List.length_cons]
      omega
    · cases hru : run with
      | nil =>
        subst hru
        rw [show textScan base (b :: rest) pos [] =
            textScan base rest (pos + 1) [] by
          simp [textScan, hb]] at hr
        have hres := textScan_offsets base rest (pos + 1) [] (by simp) r hr
        refine ⟨hres.1, ?_⟩
        have h2 := hres.2
        simp only [List.length_cons]
        omega
      | cons q0 run' =>
        obtain ⟨p0, c0⟩ := q0
        subst hru
        simp only [textScan, hb, Bool.false_eq_true, if_false] at hr
        rcases List.mem_append.mp hr with h | h
        · have hp0 : p0 < pos :=
            hrun (p0, c0) (List.mem_cons_self (p0, c0) run')
          split_ifs at h with hlen
          · simp only [List.mem_singleton] at h
            subst h
            simp only [List.length_cons]
            omega
          · simp at h
        · have hres := textScan_offsets base rest (pos + 1) [] (by simp) r h
          refine ⟨hres.1, ?_⟩
          have h2 := hres.2
          simp only [List.length_cons]
          omega

/-- Text-region findings of a chunk lie inside the chunk's absolute byte
range. -/
lemma analyze_chunk_text_offsets (data : List Nat) (base : Nat) :
    ∀ r ∈ (analyze_chunk data base).text_regions,
      base ≤ r.offset ∧ r.offset < base + data.length := by
  intro r hr
  have hres := textScan_offsets base data 0 [] (by simp) r hr
  refine ⟨hres.1, ?_⟩
  have h2 := hres.2
  omega

/-- The scan loop never touches the `file_size` field. -/
lemma scanLoopF_file_size (chunk_size fuel : Nat) :
    ∀ (remaining : List Nat) (off : Nat) (acc : Stats),
      (scanLoopF chunk_size fuel remaining off acc).file_size = acc.file_size := by
  induction fuel with
  | zero => intro remaining off acc; rfl
  | succ n ih =>
    intro remaining off acc
    by_cases hc : (remaining.take chunk_size).isEmpty
    · simp [scanLoopF, hc]
    · simp only [scanLoopF, hc, Bool.false_eq_true, if_false]
      rw [ih]
      rfl

/-- If the accumulated findings' offsets are below `B` and the bytes still to
be read fit below `B`, every finding of the finished loop is below `B`. -/
lemma scanLoopF_offsets (chunk_size B fuel : Nat) :
    ∀ (remaining : List Nat) (off : Nat) (acc : Stats),
      off + remaining.length ≤ B →
      (∀ p ∈ acc.date_patterns, p.1 < B) →
      (∀ o ∈ acc.record_starts, o < B) →
      (∀ r ∈ acc.text_regions, r.offset < B) →
      (∀ p ∈ (scanLoopF chunk_size fuel remaining off acc).date_patterns,
          p.1 < B) ∧
      (∀ o ∈ (scanLoopF chunk_size fuel remaining off acc).record_starts,
          o < B) ∧
      (∀ r ∈ (scanLoopF chunk_size fuel remaining off acc).text_regions,
          r.offset < B) := by
  induction fuel with
  | zero =>
    intro remaining off acc h hd hr ht
    exact ⟨hd, hr, ht⟩
  | succ n ih =>
    intro remaining off acc h hd hr ht
    by_cases hc : (remaining.take chunk_size).isEmpty
    · simp only [scanLoopF, hc, if_true]
      exact ⟨hd, hr, ht⟩
    · simp only [scanLoopF, hc, Bool.false_eq_true, if_false]
      have htk : (remaining.take chunk_size).length =
          min chunk_size remaining.length := List.length_take _ _
      have hdr : (remaining.drop chunk_size).length =
          remaining.length - chunk_size := List.length_drop _ _
      apply ih
      · omega
      · intro p hp
        rcases List.mem_append.mp hp with h1 | h1
        · exact hd p h1
        · have hb := analyze_chunk_date_offsets _ off p h1
          omega
      · intro o ho
        rcases List.mem_append.mp ho with h1 | h1
        · exact hr o h1
        · have hb := analyze_chunk_record_offsets _ off o h1
          omega
      · intro r hrg
        rcases List.mem_append.mp hrg with h1 | h1
        · exact ht r h1
        · have hb := analyze_chunk_text_offsets _ off r h1
          omega

/-- C6: per chunk, every finding's stored offset is the chunk base plus a
chunk-relative position inside the chunk (`base ≤ offset < base + length`);
per file, `file_size` is the byte count and every accumulated finding's
absolute offset lies in `[0, file_size)`. -/
theorem c6_offsets_absolute_in_range :
    (∀ data : List Nat, ∀ base : Nat,
        (∀ p ∈ (analyze_chunk data base).date_patterns,
            base ≤ p.1 ∧ p.1 < base + data.length) ∧
        (∀ o ∈ (analyze_chunk data base).record_starts,
            base ≤ o ∧ o < base + data.length) ∧
        (∀ r ∈ (analyze_chunk data base).text_regions,
            base ≤ r.offset ∧ r.offset < base + data.length)) ∧
    (∀ file : List Nat, ∀ chunk_size : Nat,
        (analyze_binary_file file chunk_size).file_size = file.length ∧
        (∀ p ∈ (analyze_binary_file file chunk_size).date_patterns,
            p.1 < (analyze_binary_file file chunk_size).file_size) ∧
        (∀ o ∈ (analyze_binary_file file chunk_size).record_starts,
            o < (analyze_binary_file file chunk_size).file_size) ∧
        (∀ r ∈ (analyze_binary_file file chunk_size).text_regions,
            r.offset < (analyze_binary_file file chunk_size).file_size)) := by
  constructor
  · intro data base
    exact ⟨analyze_chunk_date_offsets data base,
      analyze_chunk_record_offsets data base,
      analyze_chunk_text_offsets data base⟩
  · intro file chunk_size
    have hfs : (analyze_binary_file file chunk_size).file_size = file.length := by
      unfold analyze_binary_file
      rw [scanLoopF_file_size]
    have h := scanLoopF_offsets chunk_size file.length file.length file 0
      { file_size := file.length, date_patterns := [], record_starts := [],
        text_regions := [], record_sizes := [] }
      (by omega)
      (by intro p hp; simp at hp)
      (by intro o ho; simp at ho)
      (by intro r hr; simp at hr)
    refine ⟨hfs, ?_, ?_, ?_⟩ <;> rw [hfs]
    · exact h.1
    · exact h.2.1
    · exact h.2.2

/-- C6 witness: the nine-byte file holding one record signature reports it at
absolute offset 0, inside `[0, file_size)`. -/
theorem c6_witness :
    (0 : Nat) ∈ (analyze_binary_file [0, 0, 0, 0, 65, 66, 67, 68, 255] 9).record_starts ∧
    (0 : Nat) < (analyze_binary_file [0, 0, 0, 0, 65, 66, 67, 68, 255] 9).file_size :=
  ⟨by decide,
   by
    have h := (c6_offsets_absolute_in_range.2 [0, 0, 0, 0, 65, 66, 67, 68, 255] 9).2.2.1
      0 (by decide)
    rw [(c6_offsets_absolute_in_range.2 [0, 0, 0, 0, 65, 66, 67, 68, 255] 9).1] at h
    rw [(c6_offsets_absolute_in_range.2 [0, 0, 0, 0, 65, 66, 67, 68, 255] 9).1]
    exact h⟩

/-- The scanner `findDatePatternsE` returns normally on every input and every behavior of
the library decode. -/
lemma findDatePatternsE_ok (fromts : Nat → Except String Nat) (data : List Nat)
    (offset : Nat) : ∃ l, findDatePatternsE fromts data offset = Except.ok l :=
  ⟨_, rfl⟩

/-- The per-chunk date loop returns normally from any accumulator, because
every per-position call does. -/
lemma dateScanListE_ok (fromts : Nat → Except String Nat) (data : List Nat)
    (base : Nat) :
    ∀ (is : List Nat) (acc : List (Nat × DateDesc)),
      ∃ l, dateScanListE fromts data base is acc = Except.ok l
  | [], acc => ⟨acc, rfl⟩
  | i :: is, acc => by
    obtain ⟨ds, hds⟩ : ∃ ds, findDatePatternsE fromts data i = Except.ok ds :=
      ⟨_, rfl⟩
    simp only [dateScanListE, hds]
    exact dateScanListE_ok fromts data base is _

/-- When the decode of the probed 4-byte value raises, the result is exactly
the findings with the epoch-seconds interpretation absent. -/
lemma findDatePatternsE_error_case (fromts : Nat → Except String Nat)
    (data : List Nat) (offset : Nat) (e : String)
    (h : fromts (decodeLE4 data offset) = Except.error e) :
    findDatePatternsE fromts data offset =
      Except.ok ((find_date_patterns data offset).filter
        (fun p => !(DateDesc.isUnix p.2))) := by
  simp only [findDatePatternsE, find_date_patterns, h]
  split_ifs <;> simp [DateDesc.isUnix]

/-- With the total decode of the model, the explicit-exception scanner agrees
with `find_date_patterns`. -/
lemma findDatePatternsE_pure (data : List Nat) (offset : Nat) :
    findDatePatternsE (fun ts => Except.ok (fromtimestampYear ts)) data offset =
      Except.ok (find_date_patterns data offset) := rfl

/-- C7: whatever the library decode does — including raising on every value —
the per-position scanner and the whole per-chunk date loop return normally
(`Except.ok`), a raised decode is converted into the absence of the
epoch-seconds finding only, and under the model's total decode the
explicit-exception scanner coincides with `find_date_patterns`. -/
theorem c7_decode_errors_contained :
    (∀ fromts : Nat → Except String Nat, ∀ data : List Nat, ∀ offset : Nat,
        ∃ l, findDatePatternsE fromts data offset = Except.ok l) ∧
    (∀ fromts : Nat → Except String Nat, ∀ data : List Nat, ∀ base : Nat,
        ∃ l, dateScanE fromts data base = Except.ok l) ∧
    (∀ fromts : Nat → Except String Nat, ∀ data : List Nat, ∀ offset : Nat,
        ∀ e : String, fromts (decodeLE4 data offset) = Except.error e →
        findDatePatternsE fromts data offset =
          Except.ok ((find_date_patterns data offset).filter
            (fun p => !(DateDesc.isUnix p.2)))) ∧
    (∀ data : List Nat, ∀ offset : Nat,
        findDatePatternsE (fun ts => Except.ok (fromtimestampYear ts)) data offset =
          Except.ok (find_date_patterns data offset)) :=
  ⟨findDatePatternsE_ok,
   fun fromts data base => dateScanListE_ok fromts data base _ [],
   findDatePatternsE_error_case,
   findDatePatternsE_pure⟩

/-- C7 witness: a decode that always raises still yields a normal return,
with the epoch-seconds finding (present under the total decode on this
input) suppressed. -/
theorem c7_witness :
    findDatePatternsE (fun _ => Except.error "value out of range")
        [128, 67, 109, 56, 0, 0, 0, 0, 255] 0 =
      Except.ok ((find_date_patterns [128, 67, 109, 56, 0, 0, 0, 0, 255] 0).filter
        (fun p => !(DateDesc.isUnix p.2))) :=
  c7_decode_errors_contained.2.2.1 (fun _ => Except.error "value out of range")
    [128, 67, 109, 56, 0, 0, 0, 0, 255] 0 "value out of range" rfl

/-- Record-start findings of one chunk are strictly increasing. -/
lemma recordStarts_pairwise (data : List Nat) (base : Nat) :
    (recordStarts data base).Pairwise (· < ·) := by
  unfold recordStarts
  exact List.Pairwise.map _ (fun a b h => by omega)
    (List.Pairwise.filter _ (List.pairwise_lt_range _))

/-- Distances between consecutive members of a strictly increasing list are
strictly positive. -/
lemma pairDistances_pos : ∀ rs : List Nat, rs.Pairwise (· < ·) →
    ∀ d ∈ pairDistances rs, 0 < d
  | [], _, d, hd => by simp [pairDistances] at hd
  | [_], _, d, hd => by simp [pairDistances] at hd
  | a :: b :: t, hp, d, hd => by
    have hab : a < b := (List.pairwise_cons.mp hp).1 b (List.mem_cons_self b t)
    have htail : (b :: t).Pairwise (· < ·) := (List.pairwise_cons.mp hp).2
    simp only [pairDistances, List.tail_cons, List.zipWith_cons_cons] at hd
    rcases List.mem_cons.mp hd with hd | hd
    · subst hd
      show (0 : Int) < (b : Int) - (a : Int)
      omega
    · exact pairDistances_pos (b :: t) htail d hd

/-- Every distance the per-chunk gap computation produces is positive. -/
lemma specChunkGaps_pos (chunk_size fuel : Nat) :
    ∀ (remaining : List Nat) (base : Nat),
      ∀ d ∈ specChunkGaps chunk_size fuel remaining base, 0 < d := by
  induction fuel with
  | zero => intro remaining base d hd; simp [specChunkGaps] at hd
  | succ n ih =>
    intro remaining base d hd
    by_cases hc : (remaining.take chunk_size).isEmpty
    · simp [specChunkGaps, hc] at hd
    · simp only [specChunkGaps, hc, Bool.false_eq_true, if_false] at hd
      rcases List.mem_append.mp hd with h | h
      · by_cases hg : 1 < (recordStarts (remaining.take chunk_size) base).length
        · rw [if_pos hg] at h
          exact pairDistances_pos _ (recordStarts_pairwise _ _) d h
        · rw [if_neg hg] at h
          simp at h
      · exact ih _ _ d h

/-- C10: within each chunk the record-boundary findings come out in strictly
increasing offset order, so every consecutive-pair distance entering the gap
histogram is strictly positive. -/
theorem c10_record_starts_sorted_gaps_positive :
    (∀ data : List Nat, ∀ base : Nat,
        (recordStarts data base).Pairwise (· < ·)) ∧
    (∀ file : List Nat, ∀ chunk_size : Nat,
        ∀ d ∈ (analyze_binary_file file chunk_size).record_sizes, 0 < d) := by
  refine ⟨recordStarts_pairwise, ?_⟩
  intro file chunk_size d hd
  have heq : (analyze_binary_file file chunk_size).record_sizes =
      specChunkGaps chunk_size file.length file 0 := by
    unfold analyze_binary_file
    rw [scanLoopF_record_sizes]
    simp
  rw [heq] at hd
  exact specChunkGaps_pos chunk_size file.length file 0 d hd

set_option maxRecDepth 8000 in
/-- C10 witness: the one distance of the 128-byte example file, 40, is
positive. -/
theorem c10_witness :
    (40 : Int) ∈ (analyze_binary_file c3File 64).record_sizes ∧ (0 : Int) < 40 :=
  ⟨by decide,
   c10_record_starts_sorted_gaps_positive.2 c3File 64 40 (by decide)⟩

end RunAnalyze
